import Mathlib

/-!
Verification of the planar-geometry core of the Manim-Learning repository:
circle-circle intersection (`circle_circle_intersections` in
`triangle/triangle_w_circle.py`), the inline intersection computation and
outward-arc selection (`get_arc_path`) in `first.py`, the endpoint-snap
outline assembly, and the signed-area counter-clockwise reordering in
`TriangleScene.construct`.

Points are embedded as 3-component real vectors (the scripts use numpy
arrays of length 3 with the z component held at 0 for planar work);
floating-point numbers are idealized as exact reals, with the scripts'
explicit tolerance checks (`eps`, the `1e-8` clamp) carried over literally.
-/

noncomputable section

/-- A 3-component real vector, mirroring the numpy arrays of length 3 used
throughout the scripts (z kept at 0 for planar work). -/
structure Vec3 where
  x : ℝ
  y : ℝ
  z : ℝ

instance : Inhabited Vec3 := ⟨⟨0, 0, 0⟩⟩

/-- Componentwise vector subtraction (numpy `-` on arrays). -/
def sub3 (a b : Vec3) : Vec3 := ⟨a.x - b.x, a.y - b.y, a.z - b.z⟩

/-- Componentwise vector addition (numpy `+` on arrays). -/
def add3 (a b : Vec3) : Vec3 := ⟨a.x + b.x, a.y + b.y, a.z + b.z⟩

/-- Scalar multiplication of a vector (numpy scalar `*` array). -/
def smul3 (t : ℝ) (v : Vec3) : Vec3 := ⟨t * v.x, t * v.y, t * v.z⟩

/-- Dot product of two vectors (`np.dot`). -/
def dot3 (a b : Vec3) : ℝ := a.x * b.x + a.y * b.y + a.z * b.z

/-- Euclidean norm of a vector (`np.linalg.norm`). -/
def norm3 (v : Vec3) : ℝ := Real.sqrt (v.x ^ 2 + v.y ^ 2 + v.z ^ 2)

/-! ### `circle_circle_intersections` (triangle/triangle_w_circle.py, lines 51-89)

The function's intermediate values `v`, `d`, `a`, `h_sq` (after the clamp),
`h`, `p0` and `perp` are given their own named definitions so theorem
statements can refer to them; each is exactly the source expression. -/

/-- `v = c2 - c1`. -/
def cc_v (c1 c2 : Vec3) : Vec3 := sub3 c2 c1

/-- `d = np.linalg.norm(v)`, the distance between the centers. -/
def cc_d (c1 c2 : Vec3) : ℝ := norm3 (cc_v c1 c2)

/-- `a = (r1**2 - r2**2 + d**2) / (2 * d)`. -/
def cc_a (c1 : Vec3) (r1 : ℝ) (c2 : Vec3) (r2 : ℝ) : ℝ :=
  (r1 ^ 2 - r2 ^ 2 + cc_d c1 c2 ^ 2) / (2 * cc_d c1 c2)

/-- `h_sq = r1**2 - a**2` before the clamp. -/
def cc_hsq_raw (c1 : Vec3) (r1 : ℝ) (c2 : Vec3) (r2 : ℝ) : ℝ :=
  r1 ^ 2 - cc_a c1 r1 c2 r2 ^ 2

/-- `h_sq` after the clamp `if abs(h_sq) < eps: h_sq = 0.0`. -/
def cc_hsq (c1 : Vec3) (r1 : ℝ) (c2 : Vec3) (r2 : ℝ) (eps : ℝ) : ℝ :=
  if |cc_hsq_raw c1 r1 c2 r2| < eps then 0 else cc_hsq_raw c1 r1 c2 r2

/-- `h = np.sqrt(h_sq)`. -/
def cc_h (c1 : Vec3) (r1 : ℝ) (c2 : Vec3) (r2 : ℝ) (eps : ℝ) : ℝ :=
  Real.sqrt (cc_hsq c1 r1 c2 r2 eps)

/-- `p0 = c1 + a * v / d`, the base point on the center line. -/
def cc_p0 (c1 : Vec3) (r1 : ℝ) (c2 : Vec3) (r2 : ℝ) : Vec3 :=
  add3 c1 (smul3 (cc_a c1 r1 c2 r2 / cc_d c1 c2) (cc_v c1 c2))

/-- `perp = np.array([-v[1], v[0], 0]) / d`, the perpendicular vector. -/
def cc_perp (c1 c2 : Vec3) : Vec3 :=
  smul3 (1 / cc_d c1 c2) ⟨-(cc_v c1 c2).y, (cc_v c1 c2).x, 0⟩

/-- `circle_circle_intersections(c1, r1, c2, r2, eps)` from
`triangle/triangle_w_circle.py`: returns the list of intersection points of
the two circles, `[]` for coincident centers (`d < eps`), `[]` for disjoint
or contained circles, `[p0]` for tangency, else the two points
`p0 + h*perp` and `p0 - h*perp` in that order. -/
def circle_circle_intersections (c1 : Vec3) (r1 : ℝ) (c2 : Vec3) (r2 : ℝ)
    (eps : ℝ) : List Vec3 :=
  if cc_d c1 c2 < eps then []
  else if cc_d c1 c2 > r1 + r2 + eps ∨ cc_d c1 c2 < |r1 - r2| - eps then []
  else if cc_hsq c1 r1 c2 r2 eps < 0 then []
  else if cc_h c1 r1 c2 r2 eps = 0 then [cc_p0 c1 r1 c2 r2]
  else
    [add3 (cc_p0 c1 r1 c2 r2) (smul3 (cc_h c1 r1 c2 r2 eps) (cc_perp c1 c2)),
     sub3 (cc_p0 c1 r1 c2 r2) (smul3 (cc_h c1 r1 c2 r2 eps) (cc_perp c1 c2))]

/-! ### The inline intersection computation in `first.py` (lines 16-45)

`CapsuleScene.construct` computes the intersection of two circles inline,
bailing out (drawing only the circles) when the centers coincide or when
`h_sq` is negative after clamping tiny negative values above `-1e-8`.
We extract it, parameterized by the two circles, returning `none` on the
bail-out branches and the pair `(p1, p2)` otherwise. -/

/-- The inline intersection computation of `CapsuleScene.construct`
(`first.py` lines 16-45): `none` on the degenerate bail-out branches,
otherwise the two points `p1 = (x0+rx, y0+ry, 0)` and
`p2 = (x0-rx, y0-ry, 0)`. -/
def capsule_intersections (c1 : Vec3) (r1 : ℝ) (c2 : Vec3) (r2 : ℝ) :
    Option (Vec3 × Vec3) :=
  let v := sub3 c2 c1
  let dist := norm3 v
  if dist = 0 then none
  else
    let a := (r1 ^ 2 - r2 ^ 2 + dist ^ 2) / (2 * dist)
    let h_sq0 := r1 ^ 2 - a ^ 2
    let h_sq := if h_sq0 < 0 ∧ h_sq0 > -(1e-8) then 0 else h_sq0
    if h_sq < 0 then none
    else
      let h := Real.sqrt h_sq
      let x0 := c1.x + a * (c2.x - c1.x) / dist
      let y0 := c1.y + a * (c2.y - c1.y) / dist
      let rx := -(c2.y - c1.y) * (h / dist)
      let ry := (c2.x - c1.x) * (h / dist)
      some (⟨x0 + rx, y0 + ry, 0⟩, ⟨x0 - rx, y0 - ry, 0⟩)

end

/-! ### Evaluation helpers -/

/-- Evaluating `norm3` when the squared norm is a known square. -/
lemma norm3_eq (v : Vec3) (r : ℝ) (hr : 0 ≤ r)
    (hsq : v.x ^ 2 + v.y ^ 2 + v.z ^ 2 = r ^ 2) : norm3 v = r := by
  rw [norm3, hsq, Real.sqrt_sq hr]

/-! ### Claims about `circle_circle_intersections` -/

/-- C2: for every pair of circles whose center distance `d` satisfies
`d > r1 + r2 + eps` (disjoint) or `d < |r1 - r2| - eps` (one strictly
contains the other), `circle_circle_intersections` returns the empty
result. -/
theorem intersect_empty_of_separated (c1 : Vec3) (r1 : ℝ) (c2 : Vec3)
    (r2 eps : ℝ)
    (h : cc_d c1 c2 > r1 + r2 + eps ∨ cc_d c1 c2 < |r1 - r2| - eps) :
    circle_circle_intersections c1 r1 c2 r2 eps = [] := by
  unfold circle_circle_intersections
  by_cases hd : cc_d c1 c2 < eps
  · rw [if_pos hd]
  · rw [if_neg hd, if_pos h]

/-- Witness for C2: circles of radius 1 centered at the origin and at
`(10, 0, 0)` are disjoint and get the empty result. -/
theorem intersect_empty_of_separated_witness :
    (cc_d ⟨0, 0, 0⟩ ⟨10, 0, 0⟩ > 1 + 1 + 1e-8 ∨
      cc_d ⟨0, 0, 0⟩ ⟨10, 0, 0⟩ < |1 - 1| - 1e-8) ∧
    circle_circle_intersections ⟨0, 0, 0⟩ 1 ⟨10, 0, 0⟩ 1 (1e-8) = [] := by
  have hd : cc_d ⟨0, 0, 0⟩ ⟨10, 0, 0⟩ = 10 := by
    rw [cc_d, cc_v]
    exact norm3_eq _ 10 (by norm_num) (by simp [sub3])
  have h : cc_d ⟨0, 0, 0⟩ ⟨10, 0, 0⟩ > 1 + 1 + 1e-8 ∨
      cc_d ⟨0, 0, 0⟩ ⟨10, 0, 0⟩ < |1 - 1| - 1e-8 := by
    left; rw [hd]; norm_num
  exact ⟨h, intersect_empty_of_separated _ _ _ _ _ h⟩

/-- C3: for every pair of circles whose centers are less than `eps` apart
(including two identical circles), `circle_circle_intersections` returns
the empty result regardless of the radii. -/
theorem intersect_empty_of_coincident (c1 : Vec3) (r1 : ℝ) (c2 : Vec3)
    (r2 eps : ℝ) (h : cc_d c1 c2 < eps) :
    circle_circle_intersections c1 r1 c2 r2 eps = [] := by
  unfold circle_circle_intersections
  rw [if_pos h]

/-- Witness for C3: two identical circles (same center `(1, 2, 0)`, same
radius 3) get the empty result. -/
theorem intersect_empty_of_coincident_witness :
    cc_d ⟨1, 2, 0⟩ ⟨1, 2, 0⟩ < 1e-8 ∧
    circle_circle_intersections ⟨1, 2, 0⟩ 3 ⟨1, 2, 0⟩ 3 (1e-8) = [] := by
  have hd : cc_d ⟨1, 2, 0⟩ ⟨1, 2, 0⟩ = 0 := by
    rw [cc_d, cc_v]
    exact norm3_eq _ 0 (by norm_num) (by simp [sub3])
  have h : cc_d ⟨1, 2, 0⟩ ⟨1, 2, 0⟩ < 1e-8 := by rw [hd]; norm_num
  exact ⟨h, intersect_empty_of_coincident _ _ _ _ _ h⟩

/-- Center distance of the two `CapsuleScene` circles. -/
lemma capsule_cc_d : cc_d ⟨-2, 0, 0⟩ ⟨2, 0, 0⟩ = 4 := by
  have hv : cc_v ⟨-2, 0, 0⟩ ⟨2, 0, 0⟩ = ⟨4, 0, 0⟩ := by
    rw [cc_v, sub3]; norm_num
  rw [cc_d, hv]
  exact norm3_eq _ 4 (by norm_num) (by norm_num)

/-- Unclamped `h_sq` of the two `CapsuleScene` circles. -/
lemma capsule_cc_hsq_raw : cc_hsq_raw ⟨-2, 0, 0⟩ 3 ⟨2, 0, 0⟩ 3 = 5 := by
  have ha : cc_a ⟨-2, 0, 0⟩ 3 ⟨2, 0, 0⟩ 3 = 2 := by
    rw [cc_a, capsule_cc_d]; norm_num
  rw [cc_hsq_raw, ha]; norm_num

/-- C5: for the two circles centered at `(-2, 0, 0)` and `(2, 0, 0)`, both
of radius 3, `circle_circle_intersections` returns exactly the two points
`(0, √5, 0)` and `(0, -√5, 0)`, in that order (`p0 + h*perp` first,
`p0 - h*perp` second). -/
theorem intersect_capsule_scenario :
    circle_circle_intersections ⟨-2, 0, 0⟩ 3 ⟨2, 0, 0⟩ 3 (1e-8) =
      [⟨0, Real.sqrt 5, 0⟩, ⟨0, -Real.sqrt 5, 0⟩] := by
  have hv : cc_v ⟨-2, 0, 0⟩ ⟨2, 0, 0⟩ = ⟨4, 0, 0⟩ := by
    rw [cc_v, sub3]; norm_num
  have hd : cc_d ⟨-2, 0, 0⟩ ⟨2, 0, 0⟩ = 4 := by
    rw [cc_d, hv]
    exact norm3_eq _ 4 (by norm_num) (by norm_num)
  have ha : cc_a ⟨-2, 0, 0⟩ 3 ⟨2, 0, 0⟩ 3 = 2 := by
    rw [cc_a, hd]; norm_num
  have hraw : cc_hsq_raw ⟨-2, 0, 0⟩ 3 ⟨2, 0, 0⟩ 3 = 5 := by
    rw [cc_hsq_raw, ha]; norm_num
  have hhsq : cc_hsq ⟨-2, 0, 0⟩ 3 ⟨2, 0, 0⟩ 3 (1e-8) = 5 := by
    rw [cc_hsq, hraw]; norm_num
  have hh : cc_h ⟨-2, 0, 0⟩ 3 ⟨2, 0, 0⟩ 3 (1e-8) = Real.sqrt 5 := by
    rw [cc_h, hhsq]
  have hp0 : cc_p0 ⟨-2, 0, 0⟩ 3 ⟨2, 0, 0⟩ 3 = ⟨0, 0, 0⟩ := by
    rw [cc_p0, ha, hd, hv, smul3, add3]; norm_num
  have hperp : cc_perp ⟨-2, 0, 0⟩ ⟨2, 0, 0⟩ = ⟨0, 1, 0⟩ := by
    rw [cc_perp, hd, hv, smul3]; norm_num
  rw [circle_circle_intersections, hd, hhsq, hh, hp0, hperp]
  rw [if_neg (by norm_num), if_neg (by rw [abs_of_nonneg]; norm_num; norm_num),
    if_neg (by norm_num),
    if_neg (ne_of_gt (Real.sqrt_pos.mpr (by norm_num)))]
  rw [add3, sub3, smul3]
  norm_num

/-- C1: for every non-degenerate intersecting pair of circles
(`|r1 - r2| + eps ≤ d ≤ r1 + r2`, `eps ≤ d`, computed `h_sq` not clamped),
both points returned by `circle_circle_intersections` lie at distance `r1`
from `c1` and at distance `r2` from `c2` (exactly, hence within `eps`). -/
theorem intersect_points_on_both_circles (c1 : Vec3) (r1 : ℝ) (c2 : Vec3)
    (r2 eps : ℝ) (heps : 0 < eps) (hz : c1.z = c2.z)
    (hdeps : eps ≤ cc_d c1 c2)
    (hlow : |r1 - r2| + eps ≤ cc_d c1 c2)
    (hhigh : cc_d c1 c2 ≤ r1 + r2)
    (hclamp : eps ≤ |cc_hsq_raw c1 r1 c2 r2|) :
    ∃ q1 q2, circle_circle_intersections c1 r1 c2 r2 eps = [q1, q2] ∧
      norm3 (sub3 q1 c1) = r1 ∧ norm3 (sub3 q1 c2) = r2 ∧
      norm3 (sub3 q2 c1) = r1 ∧ norm3 (sub3 q2 c2) = r2 := by
  have hdpos : 0 < cc_d c1 c2 := lt_of_lt_of_le heps hdeps
  have hdne : cc_d c1 c2 ≠ 0 := ne_of_gt hdpos
  have habs : |r1 - r2| ≤ cc_d c1 c2 := by linarith
  have hr2 : 0 < r2 := by
    have h1 : r1 - r2 ≤ |r1 - r2| := le_abs_self _
    linarith
  have hr1 : 0 < r1 := by
    have h1 : r2 - r1 ≤ |r1 - r2| := by rw [abs_sub_comm]; exact le_abs_self _
    linarith
  have hA : (cc_d c1 c2) ^ 2 ≤ (r1 + r2) ^ 2 := pow_le_pow_left₀ hdpos.le hhigh 2
  have hB : (r1 - r2) ^ 2 ≤ (cc_d c1 c2) ^ 2 := by
    calc (r1 - r2) ^ 2 = |r1 - r2| ^ 2 := (sq_abs _).symm
    _ ≤ (cc_d c1 c2) ^ 2 := pow_le_pow_left₀ (abs_nonneg _) habs 2
  have f3 : cc_a c1 r1 c2 r2 * (2 * cc_d c1 c2) =
      r1 ^ 2 - r2 ^ 2 + (cc_d c1 c2) ^ 2 := by
    rw [cc_a]; field_simp
  have hraw_nonneg : 0 ≤ cc_hsq_raw c1 r1 c2 r2 := by
    rw [cc_hsq_raw, cc_a, div_pow, sub_nonneg, div_le_iff₀ (by positivity)]
    nlinarith [mul_nonneg (sub_nonneg.mpr hA) (sub_nonneg.mpr hB)]
  have hclampr : eps ≤ cc_hsq_raw c1 r1 c2 r2 := by
    rwa [abs_of_nonneg hraw_nonneg] at hclamp
  have hraw_pos : 0 < cc_hsq_raw c1 r1 c2 r2 := lt_of_lt_of_le heps hclampr
  have hnoclamp : cc_hsq c1 r1 c2 r2 eps = cc_hsq_raw c1 r1 c2 r2 := by
    rw [cc_hsq, if_neg (not_lt.mpr hclamp)]
  have f2 : (cc_h c1 r1 c2 r2 eps) ^ 2 = r1 ^ 2 - (cc_a c1 r1 c2 r2) ^ 2 := by
    rw [cc_h, hnoclamp, Real.sq_sqrt hraw_nonneg, cc_hsq_raw]
  have hhpos : 0 < cc_h c1 r1 c2 r2 eps := by
    rw [cc_h, hnoclamp]; exact Real.sqrt_pos.mpr hraw_pos
  have hz0 : c2.z - c1.z = 0 := by rw [hz, sub_self]
  have f1 : (c2.x - c1.x) ^ 2 + (c2.y - c1.y) ^ 2 = (cc_d c1 c2) ^ 2 := by
    rw [cc_d, cc_v, norm3, sub3]
    rw [Real.sq_sqrt (by positivity)]
    rw [hz0]
    ring
  have heval : circle_circle_intersections c1 r1 c2 r2 eps =
      [add3 (cc_p0 c1 r1 c2 r2) (smul3 (cc_h c1 r1 c2 r2 eps) (cc_perp c1 c2)),
       sub3 (cc_p0 c1 r1 c2 r2)
         (smul3 (cc_h c1 r1 c2 r2 eps) (cc_perp c1 c2))] := by
    rw [circle_circle_intersections, if_neg (not_lt.mpr hdeps),
      if_neg (by push_neg; constructor <;> linarith),
      if_neg (by rw [hnoclamp]; exact not_lt.mpr hraw_nonneg),
      if_neg (ne_of_gt hhpos)]
  have f2s : (cc_a c1 r1 c2 r2) ^ 2 + (cc_h c1 r1 c2 r2 eps) ^ 2 = r1 ^ 2 := by
    linarith [f2]
  refine ⟨_, _, heval, ?_, ?_, ?_, ?_⟩
  · apply norm3_eq _ _ hr1.le
    simp only [cc_p0, cc_perp, cc_v, sub3, add3, smul3]
    rw [hz0]
    set d := cc_d c1 c2
    set A := cc_a c1 r1 c2 r2
    set H := cc_h c1 r1 c2 r2 eps
    have key : (A / d * (c2.x - c1.x) + H * (1 / d * -(c2.y - c1.y))) ^ 2 +
        (A / d * (c2.y - c1.y) + H * (1 / d * (c2.x - c1.x))) ^ 2 = r1 ^ 2 := by
      field_simp
      linear_combination (A ^ 2 + H ^ 2) * f1 + d ^ 2 * f2s
    linear_combination key
  · apply norm3_eq _ _ hr2.le
    simp only [cc_p0, cc_perp, cc_v, sub3, add3, smul3]
    rw [hz0]
    set d := cc_d c1 c2
    set A := cc_a c1 r1 c2 r2
    set H := cc_h c1 r1 c2 r2 eps
    have key : (A / d * (c2.x - c1.x) + H * (1 / d * -(c2.y - c1.y)) -
          (c2.x - c1.x)) ^ 2 +
        (A / d * (c2.y - c1.y) + H * (1 / d * (c2.x - c1.x)) -
          (c2.y - c1.y)) ^ 2 = r2 ^ 2 := by
      field_simp
      linear_combination ((A - d) ^ 2 + H ^ 2) * f1 + d ^ 2 * f2s - d ^ 2 * f3
    linear_combination key + (c2.z - c1.z) * hz0
  · apply norm3_eq _ _ hr1.le
    simp only [cc_p0, cc_perp, cc_v, sub3, add3, smul3]
    rw [hz0]
    set d := cc_d c1 c2
    set A := cc_a c1 r1 c2 r2
    set H := cc_h c1 r1 c2 r2 eps
    have key : (A / d * (c2.x - c1.x) - H * (1 / d * -(c2.y - c1.y))) ^ 2 +
        (A / d * (c2.y - c1.y) - H * (1 / d * (c2.x - c1.x))) ^ 2 = r1 ^ 2 := by
      field_simp
      linear_combination (A ^ 2 + H ^ 2) * f1 + d ^ 2 * f2s
    linear_combination key
  · apply norm3_eq _ _ hr2.le
    simp only [cc_p0, cc_perp, cc_v, sub3, add3, smul3]
    rw [hz0]
    set d := cc_d c1 c2
    set A := cc_a c1 r1 c2 r2
    set H := cc_h c1 r1 c2 r2 eps
    have key : (A / d * (c2.x - c1.x) - H * (1 / d * -(c2.y - c1.y)) -
          (c2.x - c1.x)) ^ 2 +
        (A / d * (c2.y - c1.y) - H * (1 / d * (c2.x - c1.x)) -
          (c2.y - c1.y)) ^ 2 = r2 ^ 2 := by
      field_simp
      linear_combination ((A - d) ^ 2 + H ^ 2) * f1 + d ^ 2 * f2s - d ^ 2 * f3
    linear_combination key + (c2.z - c1.z) * hz0


/-- Witness for C1: the two `CapsuleScene` circles (centers `(-2, 0, 0)` and
`(2, 0, 0)`, both radius 3) satisfy the non-degeneracy hypotheses and both
returned points lie on both circles. -/
theorem intersect_points_on_both_circles_witness :
    ((0 : ℝ) < 1e-8 ∧ (⟨-2, 0, 0⟩ : Vec3).z = (⟨2, 0, 0⟩ : Vec3).z ∧
      1e-8 ≤ cc_d ⟨-2, 0, 0⟩ ⟨2, 0, 0⟩ ∧
      |(3 : ℝ) - 3| + 1e-8 ≤ cc_d ⟨-2, 0, 0⟩ ⟨2, 0, 0⟩ ∧
      cc_d ⟨-2, 0, 0⟩ ⟨2, 0, 0⟩ ≤ 3 + 3 ∧
      1e-8 ≤ |cc_hsq_raw ⟨-2, 0, 0⟩ 3 ⟨2, 0, 0⟩ 3|) ∧
    ∃ q1 q2,
      circle_circle_intersections ⟨-2, 0, 0⟩ 3 ⟨2, 0, 0⟩ 3 (1e-8) = [q1, q2] ∧
      norm3 (sub3 q1 ⟨-2, 0, 0⟩) = 3 ∧ norm3 (sub3 q1 ⟨2, 0, 0⟩) = 3 ∧
      norm3 (sub3 q2 ⟨-2, 0, 0⟩) = 3 ∧ norm3 (sub3 q2 ⟨2, 0, 0⟩) = 3 := by
  have h1 : (1e-8 : ℝ) ≤ cc_d ⟨-2, 0, 0⟩ ⟨2, 0, 0⟩ := by
    rw [capsule_cc_d]; norm_num
  have h2 : |(3 : ℝ) - 3| + 1e-8 ≤ cc_d ⟨-2, 0, 0⟩ ⟨2, 0, 0⟩ := by
    rw [capsule_cc_d]; norm_num
  have h3 : cc_d ⟨-2, 0, 0⟩ ⟨2, 0, 0⟩ ≤ 3 + 3 := by
    rw [capsule_cc_d]; norm_num
  have h4 : (1e-8 : ℝ) ≤ |cc_hsq_raw ⟨-2, 0, 0⟩ 3 ⟨2, 0, 0⟩ 3| := by
    rw [capsule_cc_hsq_raw]; norm_num
  exact ⟨⟨by norm_num, rfl, h1, h2, h3, h4⟩,
    intersect_points_on_both_circles _ _ _ _ _ (by norm_num) rfl h1 h2 h3 h4⟩

/-- C9: for every circle pair passing both distance guards, if the computed
`h_sq = r1^2 - a^2` satisfies `0 < h_sq < eps` (circles crossing at two
distinct nearby points), the clamp `|h_sq| < eps` zeroes it and the
function returns exactly one point (the tangency result `[p0]`) rather
than two. -/
theorem intersect_single_point_when_clamped (c1 : Vec3) (r1 : ℝ) (c2 : Vec3)
    (r2 eps : ℝ)
    (hdeps : eps ≤ cc_d c1 c2)
    (hlow : |r1 - r2| - eps ≤ cc_d c1 c2)
    (hhigh : cc_d c1 c2 ≤ r1 + r2 + eps)
    (hpos : 0 < cc_hsq_raw c1 r1 c2 r2)
    (hlt : cc_hsq_raw c1 r1 c2 r2 < eps) :
    circle_circle_intersections c1 r1 c2 r2 eps = [cc_p0 c1 r1 c2 r2] := by
  have hfires : |cc_hsq_raw c1 r1 c2 r2| < eps := by
    rw [abs_of_pos hpos]; exact hlt
  have hhsq0 : cc_hsq c1 r1 c2 r2 eps = 0 := by rw [cc_hsq, if_pos hfires]
  have hh0 : cc_h c1 r1 c2 r2 eps = 0 := by
    rw [cc_h, hhsq0, Real.sqrt_zero]
  rw [circle_circle_intersections, if_neg (not_lt.mpr hdeps),
    if_neg (by push_neg; constructor <;> linarith),
    if_neg (by rw [hhsq0]; norm_num), if_pos hh0]

/-- Witness for C9: with `eps = 1`, unit circles centered at the origin and
at `(3/2, 0, 0)` genuinely cross (`h_sq = 7/16 > 0`) yet the clamp fires
and a single point is returned. -/
theorem intersect_single_point_when_clamped_witness :
    ((1 : ℝ) ≤ cc_d ⟨0, 0, 0⟩ ⟨3/2, 0, 0⟩ ∧
      |(1 : ℝ) - 1| - 1 ≤ cc_d ⟨0, 0, 0⟩ ⟨3/2, 0, 0⟩ ∧
      cc_d ⟨0, 0, 0⟩ ⟨3/2, 0, 0⟩ ≤ 1 + 1 + 1 ∧
      0 < cc_hsq_raw ⟨0, 0, 0⟩ 1 ⟨3/2, 0, 0⟩ 1 ∧
      cc_hsq_raw ⟨0, 0, 0⟩ 1 ⟨3/2, 0, 0⟩ 1 < 1) ∧
    circle_circle_intersections ⟨0, 0, 0⟩ 1 ⟨3/2, 0, 0⟩ 1 1 =
      [cc_p0 ⟨0, 0, 0⟩ 1 ⟨3/2, 0, 0⟩ 1] := by
  have hv : cc_v ⟨0, 0, 0⟩ ⟨3/2, 0, 0⟩ = ⟨3/2, 0, 0⟩ := by
    rw [cc_v, sub3]; norm_num
  have hd : cc_d ⟨0, 0, 0⟩ ⟨3/2, 0, 0⟩ = 3/2 := by
    rw [cc_d, hv]
    exact norm3_eq _ (3/2) (by norm_num) (by norm_num)
  have hraw : cc_hsq_raw ⟨0, 0, 0⟩ 1 ⟨3/2, 0, 0⟩ 1 = 7/16 := by
    rw [cc_hsq_raw, cc_a, hd]; norm_num
  have h1 : (1 : ℝ) ≤ cc_d ⟨0, 0, 0⟩ ⟨3/2, 0, 0⟩ := by rw [hd]; norm_num
  have h2 : |(1 : ℝ) - 1| - 1 ≤ cc_d ⟨0, 0, 0⟩ ⟨3/2, 0, 0⟩ := by
    rw [hd]; norm_num
  have h3 : cc_d ⟨0, 0, 0⟩ ⟨3/2, 0, 0⟩ ≤ 1 + 1 + 1 := by rw [hd]; norm_num
  have h4 : 0 < cc_hsq_raw ⟨0, 0, 0⟩ 1 ⟨3/2, 0, 0⟩ 1 := by
    rw [hraw]; norm_num
  have h5 : cc_hsq_raw ⟨0, 0, 0⟩ 1 ⟨3/2, 0, 0⟩ 1 < 1 := by
    rw [hraw]; norm_num
  exact ⟨⟨h1, h2, h3, h4, h5⟩,
    intersect_single_point_when_clamped _ _ _ _ _ h1 h2 h3 h4 h5⟩

/-- C10: for every pair of circles (planar, positive radii) with
`eps ≤ d` and `eps ≤ h_sq` (so no clamp or degenerate branch fires in
either version), the inline computation of `CapsuleScene.construct` and
`circle_circle_intersections` produce the same two intersection points in
the same order (`p0 + h*perp` first, `p0 - h*perp` second). -/
theorem capsule_matches_circle_circle (c1 : Vec3) (r1 : ℝ) (c2 : Vec3)
    (r2 eps : ℝ) (heps : 0 < eps) (hz1 : c1.z = 0) (hz2 : c2.z = 0)
    (hr1 : 0 < r1) (hr2 : 0 < r2)
    (hdeps : eps ≤ cc_d c1 c2)
    (hraw : eps ≤ cc_hsq_raw c1 r1 c2 r2) :
    ∃ q1 q2, capsule_intersections c1 r1 c2 r2 = some (q1, q2) ∧
      circle_circle_intersections c1 r1 c2 r2 eps = [q1, q2] := by
  have hdpos : 0 < cc_d c1 c2 := lt_of_lt_of_le heps hdeps
  have hdne : cc_d c1 c2 ≠ 0 := ne_of_gt hdpos
  have hraw_pos : 0 < cc_hsq_raw c1 r1 c2 r2 := lt_of_lt_of_le heps hraw
  have expand : cc_hsq_raw c1 r1 c2 r2 * (4 * cc_d c1 c2 ^ 2) =
      ((r1 + r2) ^ 2 - cc_d c1 c2 ^ 2) *
        (cc_d c1 c2 ^ 2 - (r1 - r2) ^ 2) := by
    rw [cc_hsq_raw, cc_a]; field_simp; ring
  have hprod : 0 < ((r1 + r2) ^ 2 - cc_d c1 c2 ^ 2) *
      (cc_d c1 c2 ^ 2 - (r1 - r2) ^ 2) :=
    expand ▸ mul_pos hraw_pos (by positivity)
  have hfac1 : 0 < (r1 + r2) ^ 2 - cc_d c1 c2 ^ 2 := by
    by_contra hcon
    push_neg at hcon
    have h4 : 0 < cc_d c1 c2 ^ 2 - (r1 - r2) ^ 2 := by
      nlinarith [mul_pos hr1 hr2]
    nlinarith [mul_nonpos_of_nonpos_of_nonneg hcon h4.le]
  have hfac2 : 0 < cc_d c1 c2 ^ 2 - (r1 - r2) ^ 2 := by
    by_contra hcon
    push_neg at hcon
    nlinarith [mul_nonpos_of_nonneg_of_nonpos hfac1.le hcon]
  have hhigh : cc_d c1 c2 < r1 + r2 :=
    lt_of_pow_lt_pow_left₀ 2 (by positivity) (by linarith)
  have hlow : |r1 - r2| < cc_d c1 c2 :=
    lt_of_pow_lt_pow_left₀ 2 hdpos.le (by rw [sq_abs]; linarith)
  have hclamp : eps ≤ |cc_hsq_raw c1 r1 c2 r2| := by
    rw [abs_of_pos hraw_pos]; exact hraw
  have hnoclamp : cc_hsq c1 r1 c2 r2 eps = cc_hsq_raw c1 r1 c2 r2 := by
    rw [cc_hsq, if_neg (not_lt.mpr hclamp)]
  have ehh : cc_h c1 r1 c2 r2 eps = Real.sqrt (cc_hsq_raw c1 r1 c2 r2) := by
    rw [cc_h, hnoclamp]
  have hhpos : 0 < cc_h c1 r1 c2 r2 eps := by
    rw [ehh]; exact Real.sqrt_pos.mpr hraw_pos
  have heval : circle_circle_intersections c1 r1 c2 r2 eps =
      [add3 (cc_p0 c1 r1 c2 r2) (smul3 (cc_h c1 r1 c2 r2 eps) (cc_perp c1 c2)),
       sub3 (cc_p0 c1 r1 c2 r2)
         (smul3 (cc_h c1 r1 c2 r2 eps) (cc_perp c1 c2))] := by
    rw [circle_circle_intersections, if_neg (not_lt.mpr hdeps),
      if_neg (by push_neg; constructor <;> linarith),
      if_neg (by rw [hnoclamp]; exact not_lt.mpr hraw_pos.le),
      if_neg (ne_of_gt hhpos)]
  have e1 : norm3 (sub3 c2 c1) = cc_d c1 c2 := rfl
  have e2 : (r1 ^ 2 - r2 ^ 2 + cc_d c1 c2 ^ 2) / (2 * cc_d c1 c2) =
      cc_a c1 r1 c2 r2 := rfl
  have e3 : r1 ^ 2 - cc_a c1 r1 c2 r2 ^ 2 = cc_hsq_raw c1 r1 c2 r2 := rfl
  have hnc : ¬(cc_hsq_raw c1 r1 c2 r2 < 0 ∧
      cc_hsq_raw c1 r1 c2 r2 > -(1e-8)) := by
    rintro ⟨hc, -⟩; linarith
  have hq1 : add3 (cc_p0 c1 r1 c2 r2)
        (smul3 (cc_h c1 r1 c2 r2 eps) (cc_perp c1 c2)) =
      (⟨c1.x + cc_a c1 r1 c2 r2 * (c2.x - c1.x) / cc_d c1 c2 +
          -(c2.y - c1.y) *
            (Real.sqrt (cc_hsq_raw c1 r1 c2 r2) / cc_d c1 c2),
        c1.y + cc_a c1 r1 c2 r2 * (c2.y - c1.y) / cc_d c1 c2 +
          (c2.x - c1.x) *
            (Real.sqrt (cc_hsq_raw c1 r1 c2 r2) / cc_d c1 c2),
        0⟩ : Vec3) := by
    rw [ehh]
    simp only [cc_p0, cc_perp, cc_v, sub3, add3, smul3, Vec3.mk.injEq]
    refine ⟨by ring, by ring, ?_⟩
    linear_combination (1 - cc_a c1 r1 c2 r2 / cc_d c1 c2) * hz1 +
      (cc_a c1 r1 c2 r2 / cc_d c1 c2) * hz2
  have hq2 : sub3 (cc_p0 c1 r1 c2 r2)
      (smul3 (cc_h c1 r1 c2 r2 eps) (cc_perp c1 c2)) =
      (⟨c1.x + cc_a c1 r1 c2 r2 * (c2.x - c1.x) / cc_d c1 c2 -
          -(c2.y - c1.y) *
            (Real.sqrt (cc_hsq_raw c1 r1 c2 r2) / cc_d c1 c2),
        c1.y + cc_a c1 r1 c2 r2 * (c2.y - c1.y) / cc_d c1 c2 -
          (c2.x - c1.x) *
            (Real.sqrt (cc_hsq_raw c1 r1 c2 r2) / cc_d c1 c2),
        0⟩ : Vec3) := by
    rw [ehh]
    simp only [cc_p0, cc_perp, cc_v, sub3, add3, smul3, Vec3.mk.injEq]
    refine ⟨by ring, by ring, ?_⟩
    linear_combination (1 - cc_a c1 r1 c2 r2 / cc_d c1 c2) * hz1 +
      (cc_a c1 r1 c2 r2 / cc_d c1 c2) * hz2
  have hcap : capsule_intersections c1 r1 c2 r2 =
      some
        (⟨c1.x + cc_a c1 r1 c2 r2 * (c2.x - c1.x) / cc_d c1 c2 +
            -(c2.y - c1.y) *
              (Real.sqrt (cc_hsq_raw c1 r1 c2 r2) / cc_d c1 c2),
          c1.y + cc_a c1 r1 c2 r2 * (c2.y - c1.y) / cc_d c1 c2 +
            (c2.x - c1.x) *
              (Real.sqrt (cc_hsq_raw c1 r1 c2 r2) / cc_d c1 c2),
          0⟩,
         ⟨c1.x + cc_a c1 r1 c2 r2 * (c2.x - c1.x) / cc_d c1 c2 -
            -(c2.y - c1.y) *
              (Real.sqrt (cc_hsq_raw c1 r1 c2 r2) / cc_d c1 c2),
          c1.y + cc_a c1 r1 c2 r2 * (c2.y - c1.y) / cc_d c1 c2 -
            (c2.x - c1.x) *
              (Real.sqrt (cc_hsq_raw c1 r1 c2 r2) / cc_d c1 c2),
          0⟩) := by
    simp only [capsule_intersections]
    rw [e1, e2, e3, if_neg hdne, if_neg hnc,
      if_neg (not_lt.mpr hraw_pos.le)]
  exact ⟨_, _, hcap, by rw [heval, hq1, hq2]⟩

/-- Witness for C10: the two `CapsuleScene` circles satisfy the hypotheses,
so the inline computation and `circle_circle_intersections` agree on them. -/
theorem capsule_matches_circle_circle_witness :
    ((0 : ℝ) < 1e-8 ∧ (⟨-2, 0, 0⟩ : Vec3).z = 0 ∧ (⟨2, 0, 0⟩ : Vec3).z = 0 ∧
      (0 : ℝ) < 3 ∧
      1e-8 ≤ cc_d ⟨-2, 0, 0⟩ ⟨2, 0, 0⟩ ∧
      1e-8 ≤ cc_hsq_raw ⟨-2, 0, 0⟩ 3 ⟨2, 0, 0⟩ 3) ∧
    ∃ q1 q2, capsule_intersections ⟨-2, 0, 0⟩ 3 ⟨2, 0, 0⟩ 3 = some (q1, q2) ∧
      circle_circle_intersections ⟨-2, 0, 0⟩ 3 ⟨2, 0, 0⟩ 3 (1e-8) =
        [q1, q2] := by
  have h1 : (1e-8 : ℝ) ≤ cc_d ⟨-2, 0, 0⟩ ⟨2, 0, 0⟩ := by
    rw [capsule_cc_d]; norm_num
  have h2 : (1e-8 : ℝ) ≤ cc_hsq_raw ⟨-2, 0, 0⟩ 3 ⟨2, 0, 0⟩ 3 := by
    rw [capsule_cc_hsq_raw]; norm_num
  exact ⟨⟨by norm_num, rfl, rfl, by norm_num, h1, h2⟩,
    capsule_matches_circle_circle _ _ _ _ _ (by norm_num) rfl rfl
      (by norm_num) (by norm_num) h1 h2⟩

/-! ### `get_arc_path` (first.py, lines 63-104)

The helper computes start/end angles of `p_start`/`p_end` around `center`
via `np.arctan2`, normalized into `[0, 2*pi)` by `norm_pos` (Python float
`%` followed by a negative-guard), takes the counter-clockwise sweep, and
keeps it iff the midpoint of that CCW arc has positive dot product with
the outward vector, else selects `sweep - TAU` (clockwise, the long way).
`np.arctan2 y x` is embedded as the argument of the complex number
`x + y*i` (both lie in `(-pi, pi]` and agree for real inputs). -/

noncomputable section

/-- The manim constant `TAU = 2*pi`. -/
def TAU : ℝ := 2 * Real.pi

/-- `np.arctan2 y x`, as the complex argument of `x + y*i`. -/
def atan2 (y x : ℝ) : ℝ := Complex.arg ⟨x, y⟩

/-- Python float `%` for a real modulus: `a - b * floor(a / b)`. -/
def pymod (a b : ℝ) : ℝ := a - b * ⌊a / b⌋

/-- `norm_pos` from `get_arc_path`: `a % TAU`, then add `TAU` if negative
(the guard never fires over the reals since `pymod` is already
nonnegative, but it is kept as in the source). -/
def norm_pos (a : ℝ) : ℝ :=
  if pymod a TAU < 0 then pymod a TAU + TAU else pymod a TAU

/-- The point of the circle at angle `theta`:
`center + radius * np.array([cos(theta), sin(theta), 0.0])`, the formula
used for `mid_pt_ccw` and by the `Arc` discretization. -/
def circlePoint (center : Vec3) (radius θ : ℝ) : Vec3 :=
  add3 center (smul3 radius ⟨Real.cos θ, Real.sin θ, 0⟩)

/-- `ang_start = norm_pos(arctan2(v[1], v[0]))` for `v = p - center`
(the same formula gives `ang_end` with `p := p_end`). -/
def arc_ang (center p : Vec3) : ℝ :=
  norm_pos (atan2 (sub3 p center).y (sub3 p center).x)

/-- The CCW sweep from `ang_start` to `ang_end`: their difference, plus
`TAU` if negative. -/
def arc_sweep_ccw (center p_start p_end : Vec3) : ℝ :=
  if arc_ang center p_end - arc_ang center p_start < 0 then
    arc_ang center p_end - arc_ang center p_start + TAU
  else arc_ang center p_end - arc_ang center p_start

/-- `mid_angle_ccw = norm_pos(ang_start + sweep / 2)`. -/
def arc_mid_angle_ccw (center p_start p_end : Vec3) : ℝ :=
  norm_pos (arc_ang center p_start + arc_sweep_ccw center p_start p_end / 2)

/-- `mid_pt_ccw`, the point of the circle at the CCW mid-angle. -/
def arc_mid_pt_ccw (center : Vec3) (radius : ℝ) (p_start p_end : Vec3) :
    Vec3 :=
  circlePoint center radius (arc_mid_angle_ccw center p_start p_end)

/-- The decision dot product `np.dot(mid_pt_ccw - center, outward_vec)`. -/
def arc_mid_dot (center : Vec3) (radius : ℝ)
    (p_start p_end outward_vec : Vec3) : ℝ :=
  dot3 (sub3 (arc_mid_pt_ccw center radius p_start p_end) center) outward_vec

/-- `final_sweep`: the CCW sweep if the CCW midpoint faces outward
(dot product `> 0`), else `sweep - TAU` (clockwise, the long way). -/
def arc_final_sweep (center : Vec3) (radius : ℝ)
    (p_start p_end outward_vec : Vec3) : ℝ :=
  if arc_mid_dot center radius p_start p_end outward_vec > 0 then
    arc_sweep_ccw center p_start p_end
  else arc_sweep_ccw center p_start p_end - TAU

/-- The arc descriptor built by `get_arc_path`: the `Arc(...)` call's
radius, center, start angle, signed sweep and sample resolution. -/
structure ArcDesc where
  radius : ℝ
  arc_center : Vec3
  start_angle : ℝ
  angle : ℝ
  num_components : ℕ

/-- `get_arc_path(center, radius, p_start, p_end, outward_vec)` from
`first.py`: returns the `Arc` descriptor starting at `ang_start` with the
outward-selected signed sweep, at 60 components. -/
def get_arc_path (center : Vec3) (radius : ℝ)
    (p_start p_end outward_vec : Vec3) : ArcDesc :=
  ⟨radius, center, arc_ang center p_start,
    arc_final_sweep center radius p_start p_end outward_vec, 60⟩

end

/-! ### Angle-normalization lemmas -/

lemma tau_pos : 0 < TAU := by rw [TAU]; positivity

lemma pymod_nonneg (a b : ℝ) (hb : 0 < b) : 0 ≤ pymod a b := by
  rw [pymod]
  have h1 : (⌊a / b⌋ : ℝ) ≤ a / b := Int.floor_le _
  have h2 : b * (⌊a / b⌋ : ℝ) ≤ b * (a / b) :=
    mul_le_mul_of_nonneg_left h1 hb.le
  have h3 : b * (a / b) = a := by
    rw [mul_comm]; exact div_mul_cancel₀ a hb.ne'
  linarith

lemma pymod_lt (a b : ℝ) (hb : 0 < b) : pymod a b < b := by
  rw [pymod]
  have h1 : a / b < ⌊a / b⌋ + 1 := Int.lt_floor_add_one _
  have h2 : a < ((⌊a / b⌋ : ℝ) + 1) * b := (div_lt_iff₀ hb).mp h1
  nlinarith

lemma norm_pos_eq (a : ℝ) : norm_pos a = pymod a TAU := by
  rw [norm_pos, if_neg (not_lt.mpr (pymod_nonneg a TAU tau_pos))]

lemma norm_pos_nonneg (a : ℝ) : 0 ≤ norm_pos a := by
  rw [norm_pos_eq]; exact pymod_nonneg a TAU tau_pos

lemma norm_pos_lt_tau (a : ℝ) : norm_pos a < TAU := by
  rw [norm_pos_eq]; exact pymod_lt a TAU tau_pos

lemma pymod_tau_shift (a : ℝ) :
    pymod a TAU = a + (-⌊a / TAU⌋ : ℤ) * (2 * Real.pi) := by
  rw [pymod, TAU]; push_cast; ring

lemma cos_norm_pos (a : ℝ) : Real.cos (norm_pos a) = Real.cos a := by
  rw [norm_pos_eq, pymod_tau_shift, Real.cos_add_int_mul_two_pi]

lemma sin_norm_pos (a : ℝ) : Real.sin (norm_pos a) = Real.sin a := by
  rw [norm_pos_eq, pymod_tau_shift, Real.sin_add_int_mul_two_pi]

lemma circlePoint_add_int_mul_tau (center : Vec3) (radius θ : ℝ) (n : ℤ) :
    circlePoint center radius (θ + n * TAU) = circlePoint center radius θ := by
  rw [circlePoint, circlePoint, TAU]
  rw [Real.cos_add_int_mul_two_pi, Real.sin_add_int_mul_two_pi]

lemma circlePoint_norm_pos (center : Vec3) (radius a : ℝ) :
    circlePoint center radius (norm_pos a) = circlePoint center radius a := by
  rw [circlePoint, circlePoint, cos_norm_pos, sin_norm_pos]

/-- Componentwise extensionality for `Vec3`. -/
lemma Vec3.ext3 {a b : Vec3} (hx : a.x = b.x) (hy : a.y = b.y)
    (hz : a.z = b.z) : a = b := by
  cases a; cases b; simp_all

lemma arc_ang_nonneg (center p : Vec3) : 0 ≤ arc_ang center p := by
  rw [arc_ang]; exact norm_pos_nonneg _

lemma arc_ang_lt_tau (center p : Vec3) : arc_ang center p < TAU := by
  rw [arc_ang]; exact norm_pos_lt_tau _

lemma arc_sweep_ccw_nonneg (center p_start p_end : Vec3) :
    0 ≤ arc_sweep_ccw center p_start p_end := by
  rw [arc_sweep_ccw]
  split_ifs with h
  · linarith [arc_ang_nonneg center p_end, arc_ang_lt_tau center p_start]
  · linarith

lemma arc_sweep_ccw_lt_tau (center p_start p_end : Vec3) :
    arc_sweep_ccw center p_start p_end < TAU := by
  rw [arc_sweep_ccw]
  split_ifs with h
  · linarith
  · linarith [arc_ang_lt_tau center p_end, arc_ang_nonneg center p_start]

/-- A point on the circle is recovered from its `arc_ang` angle: the
circle point at `norm_pos(arctan2((p - center).y, (p - center).x))` is `p`
itself, for `p` at distance `radius > 0` from `center` in the plane of the
circle. -/
lemma circlePoint_arc_ang (center p : Vec3) (radius : ℝ) (hr : 0 < radius)
    (hz : p.z = center.z) (hon : norm3 (sub3 p center) = radius) :
    circlePoint center radius (arc_ang center p) = p := by
  have hz0 : p.z - center.z = 0 := by rw [hz, sub_self]
  have habs : Complex.abs ⟨p.x - center.x, p.y - center.y⟩ = radius := by
    rw [← hon, Complex.abs_apply, Complex.normSq_mk, norm3]
    simp only [sub3]
    rw [hz0]
    congr 1
    ring
  have hxy : (⟨p.x - center.x, p.y - center.y⟩ : ℂ) ≠ 0 := by
    intro h0
    rw [h0] at habs
    simp at habs
    linarith
  rw [arc_ang, atan2]
  simp only [sub3]
  rw [circlePoint_norm_pos, circlePoint]
  rw [Complex.cos_arg hxy, Complex.sin_arg]
  rw [habs]
  simp only [add3, smul3]
  apply Vec3.ext3
  · show center.x + radius * ((p.x - center.x) / radius) = p.x
    field_simp
  · show center.y + radius * ((p.y - center.y) / radius) = p.y
    field_simp
  · show center.z + radius * 0 = p.z
    rw [hz]; ring

/-- The circle point diametrically opposite to the one at angle `theta`
has the negated offset from the center, hence the negated dot product. -/
lemma dot_circlePoint_sub_pi (center : Vec3) (radius θ : ℝ) (w : Vec3) :
    dot3 (sub3 (circlePoint center radius (θ - Real.pi)) center) w =
      -(dot3 (sub3 (circlePoint center radius θ) center) w) := by
  simp only [circlePoint, add3, smul3, sub3, dot3]
  rw [Real.cos_sub_pi, Real.sin_sub_pi]
  ring

/-- C4: the midpoint of the arc returned by `get_arc_path` (the circle
point at `start_angle + angle / 2`), minus the center, has non-negative
dot product with the outward direction; and when the CCW midpoint's dot
product is exactly 0, the complementary negative (clockwise) sweep is
selected. -/
theorem outward_arc_faces_outward (center : Vec3) (radius : ℝ)
    (p_start p_end outward_vec : Vec3)
    (hs : norm3 (sub3 p_start center) = radius)
    (he : norm3 (sub3 p_end center) = radius)
    (hout : outward_vec ≠ ⟨0, 0, 0⟩) :
    0 ≤ dot3 (sub3 (circlePoint center radius
          ((get_arc_path center radius p_start p_end outward_vec).start_angle +
            (get_arc_path center radius p_start p_end outward_vec).angle / 2))
        center) outward_vec ∧
    (arc_mid_dot center radius p_start p_end outward_vec = 0 →
      (get_arc_path center radius p_start p_end outward_vec).angle < 0) := by
  have hA : arc_mid_dot center radius p_start p_end outward_vec =
      dot3 (sub3 (circlePoint center radius
        (arc_ang center p_start + arc_sweep_ccw center p_start p_end / 2))
        center) outward_vec := by
    rw [arc_mid_dot, arc_mid_pt_ccw, arc_mid_angle_ccw, circlePoint_norm_pos]
  constructor
  · show 0 ≤ dot3 (sub3 (circlePoint center radius
        (arc_ang center p_start +
          arc_final_sweep center radius p_start p_end outward_vec / 2))
        center) outward_vec
    rw [arc_final_sweep]
    split_ifs with hdot
    · rw [← hA]; linarith
    · have hshift : arc_ang center p_start +
          (arc_sweep_ccw center p_start p_end - TAU) / 2 =
          (arc_ang center p_start + arc_sweep_ccw center p_start p_end / 2) -
            Real.pi := by
        rw [TAU]; ring
      rw [hshift, dot_circlePoint_sub_pi, ← hA]
      linarith [not_lt.mp hdot]
  · intro h0
    show arc_final_sweep center radius p_start p_end outward_vec < 0
    rw [arc_final_sweep, if_neg (by rw [h0]; exact lt_irrefl 0)]
    linarith [arc_sweep_ccw_lt_tau center p_start p_end]

/-- Witness for C4: the unit circle at the origin with `p_start = (1,0,0)`,
`p_end = (-1,0,0)` and outward direction `(0,1,0)`. -/
theorem outward_arc_faces_outward_witness :
    (norm3 (sub3 ⟨1, 0, 0⟩ ⟨0, 0, 0⟩) = 1 ∧
      norm3 (sub3 ⟨-1, 0, 0⟩ ⟨0, 0, 0⟩) = 1 ∧
      (⟨0, 1, 0⟩ : Vec3) ≠ ⟨0, 0, 0⟩) ∧
    (0 ≤ dot3 (sub3 (circlePoint ⟨0, 0, 0⟩ 1
          ((get_arc_path ⟨0, 0, 0⟩ 1 ⟨1, 0, 0⟩ ⟨-1, 0, 0⟩ ⟨0, 1, 0⟩).start_angle +
            (get_arc_path ⟨0, 0, 0⟩ 1 ⟨1, 0, 0⟩ ⟨-1, 0, 0⟩ ⟨0, 1, 0⟩).angle / 2))
        ⟨0, 0, 0⟩) ⟨0, 1, 0⟩ ∧
      (arc_mid_dot ⟨0, 0, 0⟩ 1 ⟨1, 0, 0⟩ ⟨-1, 0, 0⟩ ⟨0, 1, 0⟩ = 0 →
        (get_arc_path ⟨0, 0, 0⟩ 1 ⟨1, 0, 0⟩ ⟨-1, 0, 0⟩ ⟨0, 1, 0⟩).angle < 0)) := by
  have hs : norm3 (sub3 (⟨1, 0, 0⟩ : Vec3) ⟨0, 0, 0⟩) = 1 := by
    rw [sub3]
    exact norm3_eq _ 1 (by norm_num) (by norm_num)
  have he : norm3 (sub3 (⟨-1, 0, 0⟩ : Vec3) ⟨0, 0, 0⟩) = 1 := by
    rw [sub3]
    exact norm3_eq _ 1 (by norm_num) (by norm_num)
  have hout : (⟨0, 1, 0⟩ : Vec3) ≠ ⟨0, 0, 0⟩ := by
    intro h
    have := congrArg Vec3.y h
    norm_num at this
  exact ⟨⟨hs, he, hout⟩,
    outward_arc_faces_outward _ _ _ _ _ hs he hout⟩

/-- C6: the circle point at the returned descriptor's start angle is
`p_start`, and the circle point at `start_angle + angle` is `p_end`
(exactly, in real arithmetic, hence the discretized endpoints agree with
`p_start`/`p_end` within `eps` and bit-exactly after snapping). -/
theorem outward_arc_endpoints (center : Vec3) (radius : ℝ)
    (p_start p_end outward_vec : Vec3) (hr : 0 < radius)
    (hzs : p_start.z = center.z) (hze : p_end.z = center.z)
    (hs : norm3 (sub3 p_start center) = radius)
    (he : norm3 (sub3 p_end center) = radius) :
    circlePoint center radius
        (get_arc_path center radius p_start p_end outward_vec).start_angle =
      p_start ∧
    circlePoint center radius
        ((get_arc_path center radius p_start p_end outward_vec).start_angle +
          (get_arc_path center radius p_start p_end outward_vec).angle) =
      p_end := by
  constructor
  · show circlePoint center radius (arc_ang center p_start) = p_start
    exact circlePoint_arc_ang center p_start radius hr hzs hs
  · show circlePoint center radius (arc_ang center p_start +
      arc_final_sweep center radius p_start p_end outward_vec) = p_end
    rw [arc_final_sweep, arc_sweep_ccw]
    split_ifs with hdot hneg hneg
    · have hsum : arc_ang center p_start +
          (arc_ang center p_end - arc_ang center p_start + TAU) =
          arc_ang center p_end + (1 : ℤ) * TAU := by push_cast; ring
      rw [hsum, circlePoint_add_int_mul_tau]
      exact circlePoint_arc_ang center p_end radius hr hze he
    · have hsum : arc_ang center p_start +
          (arc_ang center p_end - arc_ang center p_start) =
          arc_ang center p_end := by ring
      rw [hsum]
      exact circlePoint_arc_ang center p_end radius hr hze he
    · have hsum : arc_ang center p_start +
          (arc_ang center p_end - arc_ang center p_start + TAU - TAU) =
          arc_ang center p_end := by ring
      rw [hsum]
      exact circlePoint_arc_ang center p_end radius hr hze he
    · have hsum : arc_ang center p_start +
          (arc_ang center p_end - arc_ang center p_start - TAU) =
          arc_ang center p_end + (-1 : ℤ) * TAU := by push_cast; ring
      rw [hsum, circlePoint_add_int_mul_tau]
      exact circlePoint_arc_ang center p_end radius hr hze he

/-- Witness for C6: the unit circle at the origin with `p_start = (1,0,0)`,
`p_end = (0,1,0)` and outward direction `(1,1,0)`. -/
theorem outward_arc_endpoints_witness :
    ((0 : ℝ) < 1 ∧ (⟨1, 0, 0⟩ : Vec3).z = (⟨0, 0, 0⟩ : Vec3).z ∧
      (⟨0, 1, 0⟩ : Vec3).z = (⟨0, 0, 0⟩ : Vec3).z ∧
      norm3 (sub3 ⟨1, 0, 0⟩ ⟨0, 0, 0⟩) = 1 ∧
      norm3 (sub3 ⟨0, 1, 0⟩ ⟨0, 0, 0⟩) = 1) ∧
    (circlePoint ⟨0, 0, 0⟩ 1
        (get_arc_path ⟨0, 0, 0⟩ 1 ⟨1, 0, 0⟩ ⟨0, 1, 0⟩ ⟨1, 1, 0⟩).start_angle =
      ⟨1, 0, 0⟩ ∧
    circlePoint ⟨0, 0, 0⟩ 1
        ((get_arc_path ⟨0, 0, 0⟩ 1 ⟨1, 0, 0⟩ ⟨0, 1, 0⟩ ⟨1, 1, 0⟩).start_angle +
          (get_arc_path ⟨0, 0, 0⟩ 1 ⟨1, 0, 0⟩ ⟨0, 1, 0⟩ ⟨1, 1, 0⟩).angle) =
      ⟨0, 1, 0⟩) := by
  have hs : norm3 (sub3 (⟨1, 0, 0⟩ : Vec3) ⟨0, 0, 0⟩) = 1 := by
    rw [sub3]
    exact norm3_eq _ 1 (by norm_num) (by norm_num)
  have he : norm3 (sub3 (⟨0, 1, 0⟩ : Vec3) ⟨0, 0, 0⟩) = 1 := by
    rw [sub3]
    exact norm3_eq _ 1 (by norm_num) (by norm_num)
  exact ⟨⟨by norm_num, rfl, rfl, hs, he⟩,
    outward_arc_endpoints _ _ _ _ _ (by norm_num) rfl rfl hs he⟩

/-! ### Outline assembly: the endpoint snap (first.py, lines 111-128)

`CapsuleScene.construct` concatenates the sampled points of the two arcs
after forcing each segment's first and last point to the exact
intersection coordinates (`pts_A[0] = p1; pts_A[-1] = p2;
pts_B[0] = p2; pts_B[-1] = p1`), guarded by `shape[0] > 0`. -/

/-- The snap step applied to one arc segment (first.py lines 117-122):
when the segment is nonempty, overwrite its first sampled point with the
start junction and its last sampled point with the end junction. -/
def snapSegment (pstart pend : Vec3) (pts : List Vec3) : List Vec3 :=
  if 0 < pts.length then (pts.set 0 pstart).set (pts.length - 1) pend
  else pts

/-- Modelled from the spec: `build_outline` (spec section 4.2) is the
N-arc cyclic generalization of the snap-and-concatenate step of
`CapsuleScene.construct` (which instantiates it with N = 2 and junctions
`[p1, p2]`); the missing general builder snaps arc `i` to run from
`junctions[i]` to `junctions[(i+1) mod N]`, each segment snapped exactly
as in first.py lines 117-122. -/
def build_outline (segs : List (List Vec3)) (junctions : List Vec3) :
    List (List Vec3) :=
  (List.range segs.length).map (fun i =>
    snapSegment (junctions.getD (i % junctions.length) ⟨0, 0, 0⟩)
      (junctions.getD ((i + 1) % junctions.length) ⟨0, 0, 0⟩)
      (segs.getD i []))

lemma snapSegment_head? (p q : Vec3) (l : List Vec3) (h : 2 ≤ l.length) :
    (snapSegment p q l).head? = some p := by
  rw [snapSegment, if_pos (by omega)]
  rw [List.head?_eq_getElem?]
  rw [List.getElem?_set_ne (by omega : l.length - 1 ≠ 0)]
  exact List.getElem?_set_self (by omega)

lemma snapSegment_getLast? (p q : Vec3) (l : List Vec3) (h : 1 ≤ l.length) :
    (snapSegment p q l).getLast? = some q := by
  rw [snapSegment, if_pos (by omega)]
  rw [List.getLast?_eq_getElem?]
  simp only [List.length_set]
  exact List.getElem?_set_self (by rw [List.length_set]; omega)

lemma getD_mem {α : Type} (l : List α) (i : ℕ) (d : α)
    (h : i < l.length) : l.getD i d ∈ l := by
  rw [List.getD_eq_getElem?_getD, List.getElem?_eq_getElem h,
    Option.getD_some]
  exact List.getElem_mem h

lemma build_outline_getD (segs : List (List Vec3)) (junctions : List Vec3)
    (i : ℕ) (hi : i < segs.length) :
    (build_outline segs junctions).getD i [] =
      snapSegment (junctions.getD (i % junctions.length) ⟨0, 0, 0⟩)
        (junctions.getD ((i + 1) % junctions.length) ⟨0, 0, 0⟩)
        (segs.getD i []) := by
  rw [build_outline, List.getD_eq_getElem?_getD, List.getElem?_map,
    List.getElem?_range hi]
  rfl

/-- C7: for an outline built from N arcs sharing N junction points in a
cycle (each segment with at least its two endpoint samples), after the
snap step the first point of arc segment `i` and the last point of arc
segment `i - 1 mod N` are both exactly junction `i`, so the concatenated
closed outline has no gap at any junction. -/
theorem outline_junctions_snap (segs : List (List Vec3))
    (junctions : List Vec3) (N : ℕ) (hN : 0 < N) (hsegs : segs.length = N)
    (hjun : junctions.length = N) (hlen : ∀ s ∈ segs, 2 ≤ s.length)
    (i : ℕ) (hi : i < N) :
    ((build_outline segs junctions).getD i []).head? =
      some (junctions.getD i ⟨0, 0, 0⟩) ∧
    ((build_outline segs junctions).getD ((i + (N - 1)) % N) []).getLast? =
      some (junctions.getD i ⟨0, 0, 0⟩) := by
  constructor
  · have hi' : i < segs.length := by omega
    rw [build_outline_getD segs junctions i hi']
    rw [snapSegment_head? _ _ _ (hlen _ (getD_mem segs i [] hi'))]
    rw [hjun, Nat.mod_eq_of_lt hi]
  · have hj : (i + (N - 1)) % N < segs.length := by
      rw [hsegs]; exact Nat.mod_lt _ hN
    rw [build_outline_getD segs junctions _ hj]
    rw [snapSegment_getLast? _ _ _
      (by linarith [hlen _ (getD_mem segs _ [] hj)])]
    rw [hjun]
    have hidx : ((i + (N - 1)) % N + 1) % N = i := by
      calc ((i + (N - 1)) % N + 1) % N = (i + (N - 1) + 1) % N :=
            Nat.mod_add_mod _ _ _
      _ = (i + N) % N := by congr 1; omega
      _ = i % N := Nat.add_mod_right _ _
      _ = i := Nat.mod_eq_of_lt hi
    rw [hidx]

/-- Witness for C7: two 2-point segments joined cyclically through the
junctions `(1,0,0)` and `(0,1,0)` (the N = 2 shape of
`CapsuleScene.construct`), checked at `i = 0`. -/
theorem outline_junctions_snap_witness :
    (0 < 2 ∧ ([[⟨9, 9, 9⟩, ⟨8, 8, 8⟩], [⟨7, 7, 7⟩, ⟨6, 6, 6⟩]] :
        List (List Vec3)).length = 2 ∧
      ([⟨1, 0, 0⟩, ⟨0, 1, 0⟩] : List Vec3).length = 2 ∧
      (∀ s ∈ ([[⟨9, 9, 9⟩, ⟨8, 8, 8⟩], [⟨7, 7, 7⟩, ⟨6, 6, 6⟩]] :
        List (List Vec3)), 2 ≤ s.length) ∧ 0 < 2) ∧
    (((build_outline [[⟨9, 9, 9⟩, ⟨8, 8, 8⟩], [⟨7, 7, 7⟩, ⟨6, 6, 6⟩]]
        [⟨1, 0, 0⟩, ⟨0, 1, 0⟩]).getD 0 []).head? =
      some (([⟨1, 0, 0⟩, ⟨0, 1, 0⟩] : List Vec3).getD 0 ⟨0, 0, 0⟩) ∧
    ((build_outline [[⟨9, 9, 9⟩, ⟨8, 8, 8⟩], [⟨7, 7, 7⟩, ⟨6, 6, 6⟩]]
        [⟨1, 0, 0⟩, ⟨0, 1, 0⟩]).getD ((0 + (2 - 1)) % 2) []).getLast? =
      some (([⟨1, 0, 0⟩, ⟨0, 1, 0⟩] : List Vec3).getD 0 ⟨0, 0, 0⟩)) := by
  have hlen : ∀ s ∈ ([[⟨9, 9, 9⟩, ⟨8, 8, 8⟩], [⟨7, 7, 7⟩, ⟨6, 6, 6⟩]] :
      List (List Vec3)), 2 ≤ s.length := by
    intro s hs
    simp only [List.mem_cons, List.not_mem_nil, or_false] at hs
    rcases hs with h | h <;> subst h <;> simp
  exact ⟨⟨by norm_num, rfl, rfl, hlen, by norm_num⟩,
    outline_junctions_snap
      [[⟨9, 9, 9⟩, ⟨8, 8, 8⟩], [⟨7, 7, 7⟩, ⟨6, 6, 6⟩]]
      [⟨1, 0, 0⟩, ⟨0, 1, 0⟩] 2 (by norm_num) rfl rfl hlen 0 (by norm_num)⟩

/-! ### Signed-area test and CCW forcing (triangle_w_circle.py, lines 21-31)

`TriangleScene.construct` computes the cyclic shoelace sum over the three
circle centers and, when it is negative, reverses the centers, circles and
radii lists in lockstep (the debug labels are then built from the already
reversed list). -/

/-- The shoelace signed-area sum
`area += x1*y2 - x2*y1` over `i in range(3)` with cyclic indexing
(lines 21-25). -/
def tri_area (centers : List Vec3) : ℝ :=
  ((List.range 3).map (fun i =>
    (centers.getD i ⟨0, 0, 0⟩).x * (centers.getD ((i + 1) % 3) ⟨0, 0, 0⟩).y -
      (centers.getD ((i + 1) % 3) ⟨0, 0, 0⟩).x *
        (centers.getD i ⟨0, 0, 0⟩).y)).sum

/-- The force-CCW step (lines 28-31): when the signed area is negative,
reverse the centers and radii lists (the circles list is reversed in
lockstep and carries no extra data here). -/
noncomputable def force_ccw (centers : List Vec3) (radii : List ℝ) :
    List Vec3 × List ℝ :=
  if tri_area centers < 0 then (centers.reverse, radii.reverse)
  else (centers, radii)

/-- C8: for every triple of circle centers with negative signed shoelace
area, the force-CCW step reverses the centers and radii, and the signed
area recomputed over the reversed center order is positive. -/
theorem force_ccw_reverses_to_ccw (a b c : Vec3) (r1 r2 r3 : ℝ)
    (hneg : tri_area [a, b, c] < 0) :
    force_ccw [a, b, c] [r1, r2, r3] = ([c, b, a], [r3, r2, r1]) ∧
    0 < tri_area (force_ccw [a, b, c] [r1, r2, r3]).1 := by
  have hrev : tri_area [c, b, a] = -tri_area [a, b, c] := by
    have hr3 : List.range 3 = [0, 1, 2] := rfl
    rw [tri_area, tri_area, hr3]
    simp [List.getD]
    ring
  have heq : force_ccw [a, b, c] [r1, r2, r3] = ([c, b, a], [r3, r2, r1]) := by
    rw [force_ccw, if_pos hneg]
    rfl
  refine ⟨heq, ?_⟩
  rw [heq]
  show 0 < tri_area [c, b, a]
  rw [hrev]
  linarith

/-- Witness for C8: the clockwise triple `(0,0,0), (0,1,0), (1,0,0)` has
signed area `-1` and is reversed into a counter-clockwise order. -/
theorem force_ccw_reverses_to_ccw_witness :
    tri_area [⟨0, 0, 0⟩, ⟨0, 1, 0⟩, ⟨1, 0, 0⟩] < 0 ∧
    (force_ccw [⟨0, 0, 0⟩, ⟨0, 1, 0⟩, ⟨1, 0, 0⟩] [5, 6, 7] =
        ([⟨1, 0, 0⟩, ⟨0, 1, 0⟩, ⟨0, 0, 0⟩], [7, 6, 5]) ∧
      0 < tri_area
        (force_ccw [⟨0, 0, 0⟩, ⟨0, 1, 0⟩, ⟨1, 0, 0⟩] [5, 6, 7]).1) := by
  have hneg : tri_area [(⟨0, 0, 0⟩ : Vec3), ⟨0, 1, 0⟩, ⟨1, 0, 0⟩] < 0 := by
    have hr3 : List.range 3 = [0, 1, 2] := rfl
    rw [tri_area, hr3]
    simp [List.getD]
  exact ⟨hneg, force_ccw_reverses_to_ccw _ _ _ _ _ _ hneg⟩
